import Mathlib

/-!
# Verification of the climate-downloads notebooks

Shallow embedding of the longitude normalizer (`fix_lons`), the
spatiotemporal subsetter, the file-existence/overwrite gate and the
catalog-query builder of `download_cmip6.ipynb`, and of the chunked
ERA5 fetch-and-merge loop of the ERA5 download notebook.

Longitude values and pressure values are modelled as rationals (`ℚ`);
Python's float `%` and `//` are modelled exactly by the mathematical
`a - m * ⌊a / m⌋` and `⌊a / b⌋` (Python's float modulo/floordiv agree
with these on exactly representable inputs).  Fallible Python code
(IndexError, KeyError, TypeError, NameError, ...) is modelled with
`Option`/`Except`.
-/

namespace ClimateDownloads

/-- Python's `a % m` on numbers (sign follows the divisor):
`a - m * floor (a / m)`.  Used for `ds.lon % 360` and
`(ds.lon + 180) % 360` in `fix_lons`. -/
def pymod (a m : ℚ) : ℚ := a - m * ⌊a / m⌋

/-- Python's `a // b` floor division on numbers. -/
def pyfloordiv (a b : ℚ) : ℤ := ⌊a / b⌋

/-- Semantics of `np.roll(l, k)` along one axis: element at index `i` of
the result is the element at index `(i - k) mod len` of `l`; equivalently
a left rotation by `(-k) mod len`.  On an empty axis `np.roll` is the
identity. -/
def npRoll (l : List ℚ) (k : ℤ) : List ℚ :=
  if l.length = 0 then l else l.rotate ((-k % (l.length : ℤ)).toNat)

/-- Semantics of `boolarray.nonzero()[0][0]` on a 1-D array: the first
index at which the predicate holds, `none` (IndexError) when there is
none. -/
def firstIdx (p : ℚ → Bool) : List ℚ → Option ℕ
  | [] => none
  | x :: xs => if p x then some 0 else (firstIdx p xs).map (· + 1)

/-- The `fix_lons` function of `download_cmip6.ipynb`, acting on the 1-D
longitude coordinate of the dataset.  `lon_range` and `lon_origin` are
the fields of `subset_params` it reads.

* `lon_range == 180`: remap with `((lon + 180) % 360) - 180` when any
  longitude exceeds 180, then, if the first longitude is `> -175`, roll
  right by half the axis length (`ds.roll(lon=ds.sizes['lon'] // 2)`).
  `ds.lon[0]` on an empty axis is an IndexError (`none`).
* `lon_range == 360`: remap with `lon % 360`, then roll left by the
  first index whose value floor-divided by `lon_origin` equals 1
  (`ds.roll(lon=-((ds.lon // lon_origin)==1).values.nonzero()[0][0])`).
  With `lon_origin = 0` the float floor division yields nan (never 1),
  and with an empty match set `.nonzero()[0][0]` is an IndexError; both
  are `none`.
* any other `lon_range`: the dataset is returned unchanged. -/
def fix_lons (lons : List ℚ) (lon_range : ℤ) (lon_origin : ℚ) : Option (List ℚ) :=
  if lon_range = 180 then
    let l1 := if lons.any (fun x => decide (180 < x))
      then lons.map (fun x => pymod (x + 180) 360 - 180) else lons
    l1.head?.map (fun h => if h > -175 then npRoll l1 ((l1.length / 2 : ℕ) : ℤ) else l1)
  else if lon_range = 360 then
    let l1 := lons.map (fun x => pymod x 360)
    if lon_origin = 0 then none
    else (firstIdx (fun x => decide (pyfloordiv x lon_origin = 1)) l1).map
      (fun i : ℕ => npRoll l1 (-(i : ℤ)))
  else some lons

/-- A standard global longitude grid: `n` evenly spaced values
`0, 360/n, ..., (n-1) * (360/n)`. -/
def stdGrid (n : ℕ) : List ℚ :=
  (List.range n).map (fun k : ℕ => (k : ℚ) * (360 / (n : ℚ)))

/-- The 180-convention form of the standard grid:
`-180, -180 + 360/n, ..., 180 - 360/n`. -/
def stdGrid180 (n : ℕ) : List ℚ :=
  (List.range n).map (fun k : ℕ => (k : ℚ) * (360 / (n : ℚ)) - 180)

/-- Trace of the per-source-dataset overwrite gate of the main processing
cell of `download_cmip6.ipynb`: whether the remote grid was opened
(`xr.open_zarr`), which of the candidate output paths were deleted
(`os.remove`) and which were written (`ds_tmp.to_netcdf`), and whether
the all-files-already-created skip report was issued. -/
structure SourceTrace where
  loaded : Bool
  deleted : List Bool
  written : List Bool
  skipReport : Bool
deriving Repr, DecidableEq

/-- The file-existence/overwrite gate and per-subset write loop of the
main processing cell, as a function of the `overwrite` flag and the
on-disk existence of each candidate output path:

* `(not overwrite) & all(path_exists)`: warn and `continue` — the remote
  grid is never opened, nothing is deleted, nothing is written;
* `elif any(path_exists)`: when `overwrite`, each existing path is
  removed before regeneration;
* then the grid is opened and, per subset spec, the write is skipped
  exactly when `(not overwrite) & path_exists[i]`. -/
def processSource (overwrite : Bool) (pathExists : List Bool) : SourceTrace :=
  if (!overwrite) && pathExists.all (fun e => e) then
    { loaded := false
      deleted := pathExists.map (fun _ => false)
      written := pathExists.map (fun _ => false)
      skipReport := true }
  else
    { loaded := true
      deleted := if pathExists.any (fun e => e) && overwrite then pathExists
                 else pathExists.map (fun _ => false)
      written := pathExists.map (fun e => overwrite || !e)
      skipReport := false }

/-- A calendar date `YYYY-MM-DD`. -/
structure CalDate where
  year : ℕ
  month : ℕ
  day : ℕ
deriving Repr, DecidableEq

/-- Lexicographic date comparison `d1 ≤ d2` (the order used by label
slicing on the time axis). -/
def CalDate.le (d1 d2 : CalDate) : Bool :=
  (d1.year < d2.year) || (d1.year = d2.year && (d1.month < d2.month ||
    (d1.month = d2.month && d1.day ≤ d2.day)))

/-- Semantics of `re.sub('-31','-30', t)` on a well-formed `YYYY-MM-DD`
date string: months are at most 12, so the substring `-31` occurs in the
string exactly when the day field is 31, and the substitution rewrites
that day to 30. -/
def subEnd31 (d : CalDate) : CalDate :=
  if d.day = 31 then { d with day := 30 } else d

/-- Maximum of the time axis (`ds.time.max()`); `none` on an empty axis. -/
def maxDate (times : List CalDate) : Option CalDate :=
  times.foldl (fun acc t =>
    match acc with
    | none => some t
    | some mx => if CalDate.le mx t then some t else some mx) none

/-- The 30-day-month detection of the time-subsetting step:
`(ds.time.max().dt.day == 30) | (type(ds.time.values[0]) ==
cftime._cftime.Datetime360Day)`.  `is360` records whether the time
values are of the explicit 360-day calendar type. -/
def calendar30 (times : List CalDate) (is360 : Bool) : Bool :=
  ((maxDate times).map (fun d => decide (d.day = 30))).getD false || is360

/-- Time subsetting of the main processing cell: if the grid looks like a
30-day-month calendar, the end date has `-31` replaced by `-30` before
slicing, else the literal dates are used; label slicing selects the
times `t` with `t0 ≤ t ≤ t1` (both ends inclusive). -/
def timeSubset (times : List CalDate) (is360 : Bool) (t0 t1 : CalDate) : List CalDate :=
  if calendar30 times is360 then
    times.filter (fun t => CalDate.le t0 t && CalDate.le t (subEnd31 t1))
  else
    times.filter (fun t => CalDate.le t0 t && CalDate.le t t1)

/-- Rounding half-to-even at integer precision (the rounding used by
`np.round`). -/
def roundHalfEven (x : ℚ) : ℤ :=
  let f := ⌊x⌋
  let r := x - (f : ℚ)
  if r < 1/2 then f
  else if 1/2 < r then f + 1
  else if f % 2 = 0 then f else f + 1

/-- Semantics of `np.round(x, 10)`: round to 10 decimal places, ties to
even. -/
def round10 (x : ℚ) : ℚ := (roundHalfEven (x * 10 ^ 10) : ℚ) / 10 ^ 10

/-- A loaded grid with 1-D `lat`/`lon` coordinates; `nanMask` is the
primary variable's NaN mask indexed `[time][lat][lon]` (`true` = the
value there is NaN). -/
structure CGrid where
  lat : List ℚ
  lon : List ℚ
  nanMask : List (List (List Bool))
deriving Repr

/-- NaN flags of `ds.isel(lon=1,time=1)[variable]` over the lat axis:
whether the value at time index 1, lat index `i`, lon index 1 is NaN. -/
def refNanLat (g : CGrid) (i : ℕ) : Bool :=
  ((g.nanMask.getD 1 []).getD i []).getD 1 true

/-- NaN flags of `ds.isel(lat=1,time=1)[variable]` over the lon axis. -/
def refNanLon (g : CGrid) (j : ℕ) : Bool :=
  ((g.nanMask.getD 1 []).getD 1 []).getD j true

/-- Semantics of `(~np.isnan(...)).nonzero()[0]`: the indices (out of `n`)
at which the reference slice is not NaN. -/
def keepIdx (n : ℕ) (bad : ℕ → Bool) : List ℕ :=
  (List.range n).filter (fun i => !bad i)

/-- `ds.isel(lat=idx)`: index the lat axis (and dimension 1 of the mask)
by a list of positions. -/
def selLat (g : CGrid) (idx : List ℕ) : CGrid :=
  { lat := idx.filterMap (fun i => g.lat.get? i)
    lon := g.lon
    nanMask := g.nanMask.map (fun rows => idx.filterMap (fun i => rows.get? i)) }

/-- `ds.isel(lon=idx)`: index the lon axis (and dimension 2 of the mask)
by a list of positions. -/
def selLon (g : CGrid) (idx : List ℕ) : CGrid :=
  { lat := g.lat
    lon := idx.filterMap (fun j => g.lon.get? j)
    nanMask := g.nanMask.map (fun rows => rows.map (fun r => idx.filterMap (fun j => r.get? j))) }

/-- Duplicate-coordinate compensation along `lat` of the main processing
cell: when the lat values rounded to 10 decimals contain duplicates
(`len(np.unique(np.round(ds.lat.values,10))) != ds.dims['lat']`), keep
exactly the lat indices whose primary-variable value at the reference
slice `isel(lon=1,time=1)` is not NaN, and warn; otherwise leave the
grid unchanged.  The Bool records whether the warning fired. -/
def dedupLat (g : CGrid) : CGrid × Bool :=
  if (g.lat.map round10).dedup.length ≠ g.lat.length then
    (selLat g (keepIdx g.lat.length (refNanLat g)), true)
  else (g, false)

/-- Duplicate-coordinate compensation along `lon`, using the reference
slice `isel(lat=1,time=1)`. -/
def dedupLon (g : CGrid) : CGrid × Bool :=
  if (g.lon.map round10).dedup.length ≠ g.lon.length then
    (selLon g (keepIdx g.lon.length (refNanLon g)), true)
  else (g, false)

/-- A concrete grid with six lat rows of which two (indices 2 and 4) are
duplicated (value 20) and are NaN in the primary variable at the
reference slice, all other rows being non-NaN there. -/
def sampleGrid : CGrid :=
  { lat := [0, 10, 20, 30, 20, 40]
    lon := [0, 90]
    nanMask :=
      [ [[false, false], [false, false], [false, false], [false, false],
         [false, false], [false, false]],
        [[false, false], [false, false], [false, true], [false, false],
         [false, true], [false, false]] ] }

/-- Python dict lookup `s[k]` on a dict modelled as a key-ordered
association list; `none` models KeyError. -/
def lookupSpec (s : List (String × String)) (k : String) : Option String :=
  (s.find? (fun p => p.1 == k)).map (fun p => p.2)

/-- Value of key `k` in spec `s`, defaulting to `""` (used only where a
successful lookup has been established). -/
def valueOf (s : List (String × String)) (k : String) : String :=
  (lookupSpec s k).getD ""

/-- The single-quote character, written via its code point. -/
def sq : String := String.singleton (Char.ofNat 39)

/-- One equality predicate of the catalog query:
`k + " == '" + v + "'"`. -/
def eqPred (k v : String) : String := k ++ " == " ++ sq ++ v ++ sq

/-- The base query over the common-valued keys:
`' and '.join([k + " == '" + batch[0][k] + "'" for k in
itemgetter(*common_indices)(keys)])`.  With no common index,
`itemgetter()` raises TypeError (`none`); with exactly one, `itemgetter`
returns the bare key string and the comprehension iterates over its
characters, looking each single-character string up in `batch[0]`
(KeyError — `none` — unless that character is itself a key); with two or
more it returns the tuple of keys. -/
def commonBase (s0 : List (String × String)) : List String → Option String
  | [] => none
  | [k] =>
    Option.map (String.intercalate " and ")
      (k.toList.mapM (fun c =>
        Option.map (fun v => eqPred (String.singleton c) v)
          (lookupSpec s0 (String.singleton c))))
  | ks =>
    Option.map (String.intercalate " and ")
      (ks.mapM (fun k2 => Option.map (fun v => eqPred k2 v) (lookupSpec s0 k2)))

/-- Appends the OR groups of the varying keys to the base query: each
varying key contributes a parenthesized group
`' or '.join([k + " == '" + spec[k] + "'" for spec in batch])`, one
disjunct per specification.  (The code's separate branch for exactly one
varying key wraps the lone key in a list and produces the same string as
the general branch, so the two are merged.)  With no varying key the
base query stands alone. -/
def withVarying (specs : List (List (String × String))) (base : String) :
    List String → Option String
  | [] => some base
  | vks =>
    Option.map (fun groups =>
        base ++ " and (" ++ String.intercalate ") and (" groups ++ ")")
      (vks.mapM (fun k =>
        Option.map (String.intercalate " or ")
          (specs.mapM (fun s => Option.map (fun v => eqPred k v) (lookupSpec s k)))))

/-- The catalog-query construction of `download_cmip6.ipynb` over a
batch of per-variable download specifications (Python dicts sharing a
key order, modelled as association lists).  A key counts as common when
`len(np.unique([x[key] for x in batch])) == 1` (KeyError — `none` — if
some spec lacks the key); the query is the common-key base
(`commonBase`) followed by the OR groups of the varying keys
(`withVarying`). -/
def buildQuery (specs : List (List (String × String))) : Option String := do
  let s0 ← specs.head?
  let keys := s0.map (fun p => p.1)
  let flags ← keys.mapM (fun k =>
    (specs.mapM (fun s => lookupSpec s k)).map
      (fun vs => decide (vs.dedup.length = 1)))
  let commonKeys := ((keys.zip flags).filter (fun p => p.2)).map (fun p => p.1)
  let varyingKeys := ((keys.zip flags).filter (fun p => !p.2)).map (fun p => p.1)
  let base ← commonBase s0 commonKeys
  withVarying specs base varyingKeys

/-- The resolver output as the claim describes it, for a batch with
first spec `s0`: the AND of one equality predicate for each key whose
value is identical across all specifications, followed, for each key
whose value varies across the batch, by a parenthesized OR group of
equality predicates over that key's values (one per specification). -/
def specQueryCore (specs : List (List (String × String)))
    (s0 : List (String × String)) : String :=
  let keys := s0.map (fun p => p.1)
  let isCommon : String → Bool := fun k =>
    decide ((specs.map (fun s => valueOf s k)).dedup.length = 1)
  let commonKeys := keys.filter isCommon
  let varyingKeys := keys.filter (fun k => !isCommon k)
  let base := String.intercalate " and "
    (commonKeys.map (fun k => eqPred k (valueOf s0 k)))
  if varyingKeys.isEmpty then base
  else base ++ " and (" ++ String.intercalate ") and ("
    (varyingKeys.map (fun k => String.intercalate " or "
      (specs.map (fun s => eqPred k (valueOf s k))))) ++ ")"

/-- The parameter resolver as the claim describes it, written from the
claim's words, to be compared with `buildQuery`. -/
def specQuery (specs : List (List (String × String))) : String :=
  match specs.head? with
  | none => ""
  | some s0 => specQueryCore specs s0

/-- Python runtime errors raised by the notebook code paths modelled
here. -/
inductive PyErr
  | typeError
  | indexError
  | keyError
  | nameError
  | fileNotFoundError
  | osError
deriving Repr, DecidableEq

/-- Semantics of `np.allclose(p, t)` with the default tolerances
`rtol = 1e-5`, `atol = 1e-8`: `|p - t| ≤ atol + rtol * |t|`. -/
def allclose (p t : ℚ) : Bool :=
  decide (|p - t| ≤ 1 / 100000000 + (1 / 100000) * |t|)

/-- Outcome of the pressure-level subsetting step for one output spec. -/
inductive PlevOutcome
  | unchanged
  | selected (idx : ℕ)
  | skipped
deriving Repr, DecidableEq

/-- The pressure-level subsetting step of the main processing cell of
`download_cmip6.ipynb`:
`if 'other' in data_params.keys():` followed by
`if 'plev_subset' in data_params['other'].keys:`.  The second test is
missing the call parentheses: `.keys` is the bound method object, and a
membership test against it raises TypeError, so the step fails whenever
`'other'` is present in `data_params` at all; without `'other'` the
dataset passes through unchanged. -/
def plevStep (hasOther : Bool) (plevs : List ℚ) (target : ℚ) :
    Except PyErr PlevOutcome :=
  if hasOther then Except.error PyErr.typeError
  else Except.ok PlevOutcome.unchanged

/-- The `try` body of the pressure-level subsetting (i.e. the behavior
with the membership test repaired to `.keys()`):
`ds_tmp.isel(plev=np.where([np.allclose(p, target) for p in
ds_tmp.plev])[0][0])` selects the first level within tolerance; when no
level matches, the `[0]` on the empty index array raises IndexError —
which the surrounding `except KeyError` clause does not catch. -/
def plevTry (plevs : List ℚ) (target : ℚ) : Except PyErr PlevOutcome :=
  match firstIdx (fun p => allclose p target) plevs with
  | some i => Except.ok (PlevOutcome.selected i)
  | none => Except.error PyErr.indexError

/-- One action of the ERA5 chunk loop. -/
inductive ChunkAct
  | fetched (idx : ℕ)
  | skipped (idx : ℕ)
deriving Repr, DecidableEq

/-- The ERA5 per-chunk loop for one variable whose final file does not
exist.  The list holds, per chunk, whether that chunk's processed
intermediate (`re.sub('hr','day',fn0)`) already exists on disk;
`fn1Defined` — whether the interpreter variable `fn1` is currently
bound (false at the start of a fresh run).  A present chunk is skipped
via `print(fn1 + ' already exists; skipped.')`, which raises NameError
when `fn1` has never been assigned; an absent chunk is fetched,
processed and exported, which assigns `fn1`. -/
def runChunksAux (fn1Defined : Bool) (i : ℕ) : List Bool → Except PyErr (List ChunkAct)
  | [] => Except.ok []
  | p :: rest =>
    if p then
      if fn1Defined then
        (runChunksAux fn1Defined (i + 1) rest).map
          (fun acts => ChunkAct.skipped i :: acts)
      else Except.error PyErr.nameError
    else
      (runChunksAux true (i + 1) rest).map (fun acts => ChunkAct.fetched i :: acts)

/-- The chunk loop started on a fresh interpreter (no `fn1` bound). -/
def runChunks (present : List Bool) : Except PyErr (List ChunkAct) :=
  runChunksAux false 0 present

/-- Trace of the ERA5 concatenation-and-cleanup phase. -/
structure ConcatTrace where
  finalWritten : Bool
  includedChunks : List ℕ
  raised : Option PyErr
deriving Repr, DecidableEq

/-- The concatenation phase of the ERA5 notebook:
`xr.open_mfdataset(<glob over the date segment>, combine='by_coords')`
opens whichever chunk intermediates currently exist (a missing file
simply does not match the wildcard), `ds.to_netcdf(fn_final)` writes the
final file from exactly those, and the cleanup loop then calls
`os.remove` on every chunk's intermediate name, raising
FileNotFoundError at the first missing one — after the final file has
been written.  Only an empty glob makes `open_mfdataset` itself raise
(OSError), in which case nothing is written. -/
def concatPhase (present : List Bool) : ConcatTrace :=
  let idxs := (List.range present.length).filter (fun i => present.getD i false)
  if idxs.isEmpty then
    { finalWritten := false, includedChunks := [], raised := some PyErr.osError }
  else
    { finalWritten := true
      includedChunks := idxs
      raised := if present.all (fun p => p) then none
                else some PyErr.fileNotFoundError }

section PymodLemmas

theorem pymod_nonneg (a : ℚ) {m : ℚ} (hm : 0 < m) : 0 ≤ pymod a m := by
  have h := Int.floor_le (a / m)
  have : m * (⌊a / m⌋ : ℚ) ≤ m * (a / m) := by
    exact mul_le_mul_of_nonneg_left h hm.le
  rw [mul_div_cancel₀ _ hm.ne'] at this
  simpa [pymod] using this

theorem pymod_lt (a : ℚ) {m : ℚ} (hm : 0 < m) : pymod a m < m := by
  have h := Int.lt_floor_add_one (a / m)
  have : m * (a / m) < m * ((⌊a / m⌋ : ℚ) + 1) := mul_lt_mul_of_pos_left h hm
  rw [mul_div_cancel₀ _ hm.ne'] at this
  simp only [pymod]
  nlinarith

theorem pymod_eq_self {a m : ℚ} (hm : 0 < m) (h0 : 0 ≤ a) (h1 : a < m) :
    pymod a m = a := by
  have : ⌊a / m⌋ = 0 := by
    rw [Int.floor_eq_zero_iff]
    constructor
    · exact div_nonneg h0 hm.le
    · rw [div_lt_one hm]; exact h1
  simp [pymod, this]

theorem pymod_eq_sub {a m : ℚ} (hm : 0 < m) (h0 : m ≤ a) (h1 : a < 2 * m) :
    pymod a m = a - m := by
  have : ⌊a / m⌋ = 1 := by
    rw [Int.floor_eq_iff]
    constructor
    · push_cast
      rw [le_div_iff₀ hm]; linarith
    · push_cast
      rw [div_lt_iff₀ hm]; linarith
  simp [pymod, this]

theorem pymod_idem (a : ℚ) {m : ℚ} (hm : 0 < m) : pymod (pymod a m) m = pymod a m :=
  pymod_eq_self hm (pymod_nonneg a hm) (pymod_lt a hm)

end PymodLemmas

section FirstIdxLemmas

theorem firstIdx_eq_none_iff (p : ℚ → Bool) (l : List ℚ) :
    firstIdx p l = none ↔ ∀ x ∈ l, p x = false := by
  induction l with
  | nil => simp [firstIdx]
  | cons x xs ih =>
    by_cases hx : p x
    · simp [firstIdx, hx]
    · simp only [firstIdx, if_neg hx, Option.map_eq_none', ih]
      constructor
      · intro h
        intro y hy
        rcases List.mem_cons.1 hy with rfl | hy'
        · exact Bool.eq_false_iff.2 hx
        · exact h y hy'
      · intro h y hy
        exact h y (List.mem_cons_of_mem _ hy)

theorem firstIdx_eq_some (p : ℚ → Bool) (l : List ℚ) (i : ℕ)
    (h : firstIdx p l = some i) : ∃ hi : i < l.length, p (l.get ⟨i, hi⟩) = true := by
  induction l generalizing i with
  | nil => simp [firstIdx] at h
  | cons x xs ih =>
    by_cases hx : p x
    · simp only [firstIdx, if_pos hx, Option.some.injEq] at h
      subst h
      exact ⟨by simp, hx⟩
    · simp only [firstIdx, if_neg hx, Option.map_eq_some'] at h
      obtain ⟨j, hj, rfl⟩ := h
      obtain ⟨hjl, hpj⟩ := ih j hj
      exact ⟨by simpa using Nat.succ_lt_succ hjl, hpj⟩

theorem firstIdx_cons_of_pos (p : ℚ → Bool) (x : ℚ) (xs : List ℚ) (hx : p x = true) :
    firstIdx p (x :: xs) = some 0 := by
  simp [firstIdx, hx]

end FirstIdxLemmas

section NpRollLemmas

theorem npRoll_zero (l : List ℚ) : npRoll l 0 = l := by
  unfold npRoll
  split
  · rfl
  · simp

theorem npRoll_neg_eq_rotate (l : List ℚ) (i : ℕ) (hi : i < l.length) :
    npRoll l (-(i : ℤ)) = l.rotate i := by
  unfold npRoll
  rw [if_neg (by omega)]
  congr 1
  rw [neg_neg]
  rw [Int.emod_eq_of_lt (by omega) (by omega)]
  simp

end NpRollLemmas

section FixLons360

/-- Unfolds `fix_lons` at `lon_range = 360` into its branch body. -/
theorem fix_lons_360_eq (lons : List ℚ) (o : ℚ) :
    fix_lons lons 360 o =
      (let l1 := lons.map (fun x => pymod x 360)
       if o = 0 then none
       else (firstIdx (fun x => decide (pyfloordiv x o = 1)) l1).map
         (fun i : ℕ => npRoll l1 (-(i : ℤ)))) := by
  unfold fix_lons
  norm_num

theorem mem_map_pymod_nonneg {lons : List ℚ} {x : ℚ}
    (hx : x ∈ lons.map (fun x => pymod x 360)) : 0 ≤ x ∧ x < 360 := by
  obtain ⟨y, -, rfl⟩ := List.mem_map.1 hx
  exact ⟨pymod_nonneg y (by norm_num), pymod_lt y (by norm_num)⟩

/-- If the 360-branch succeeds, the result is a left rotation of the
remapped longitudes by the found index, and that index is a genuine
match. -/
theorem fix_lons_360_some {lons out : List ℚ} {o : ℚ}
    (h : fix_lons lons 360 o = some out) :
    o ≠ 0 ∧ ∃ i, ∃ hi : i < (lons.map (fun x => pymod x 360)).length,
      pyfloordiv ((lons.map (fun x => pymod x 360)).get ⟨i, hi⟩) o = 1 ∧
      out = (lons.map (fun x => pymod x 360)).rotate i := by
  rw [fix_lons_360_eq] at h
  simp only at h
  by_cases ho : o = 0
  · simp [ho] at h
  refine ⟨ho, ?_⟩
  rw [if_neg ho] at h
  rcases hf : firstIdx (fun x => decide (pyfloordiv x o = 1))
      (lons.map (fun x => pymod x 360)) with _ | i
  · rw [hf] at h; simp at h
  · rw [hf, Option.map_some'] at h
    simp only [Option.some.injEq] at h
    obtain ⟨hi, hp⟩ := firstIdx_eq_some _ _ _ hf
    refine ⟨i, hi, by simpa using hp, ?_⟩
    rw [← h, npRoll_neg_eq_rotate _ _ hi]

end FixLons360

section C1

/-- Unfolds `fix_lons` at `lon_range = 180` into its branch body. -/
theorem fix_lons_180_eq (lons : List ℚ) (o : ℚ) :
    fix_lons lons 180 o =
      (let l1 := if lons.any (fun x => decide (180 < x))
         then lons.map (fun x => pymod (x + 180) 360 - 180) else lons
       l1.head?.map (fun h =>
         if h > -175 then npRoll l1 ((l1.length / 2 : ℕ) : ℤ) else l1)) := by
  unfold fix_lons
  norm_num

/-- On the standard even-length global grid `0, s, ..., 360 - s` with
`s = 360 / (2m)`, the 180-branch of `fix_lons` produces exactly the
sorted grid `-180, -180 + s, ..., 180 - s`. -/
theorem stdGrid_length (n : ℕ) : (stdGrid n).length = n := by
  rw [stdGrid, List.length_map, List.length_range]

theorem stdGrid_get (n : ℕ) (k : ℕ) (hk : k < (stdGrid n).length) :
    (stdGrid n).get ⟨k, hk⟩ = (k : ℚ) * (360 / (n : ℚ)) := by
  simp only [stdGrid, List.get_eq_getElem, List.getElem_map, List.getElem_range]

theorem stdGrid180_length (n : ℕ) : (stdGrid180 n).length = n := by
  rw [stdGrid180, List.length_map, List.length_range]

theorem stdGrid180_get (n : ℕ) (k : ℕ) (hk : k < (stdGrid180 n).length) :
    (stdGrid180 n).get ⟨k, hk⟩ = (k : ℚ) * (360 / (n : ℚ)) - 180 := by
  simp only [stdGrid180, List.get_eq_getElem, List.getElem_map, List.getElem_range]

theorem fix_lons_stdGrid (m : ℕ) (hm : 2 ≤ m) (o : ℚ) :
    fix_lons (stdGrid (2 * m)) 180 o = some (stdGrid180 (2 * m)) := by
  have hm0 : (0 : ℚ) < (m : ℚ) := by exact_mod_cast Nat.lt_of_lt_of_le (by norm_num) hm
  set n : ℕ := 2 * m with hn
  have hnQ : ((n : ℕ) : ℚ) = 2 * (m : ℚ) := by rw [hn]; push_cast; ring
  set s : ℚ := 360 / ((n : ℕ) : ℚ) with hsdef
  have hs : 0 < s := by
    apply div_pos (by norm_num)
    rw [hnQ]; positivity
  have hms : (m : ℚ) * s = 180 := by
    rw [hsdef, hnQ]
    field_simp
    ring
  have h2ms : ((n : ℕ) : ℚ) * s = 360 := by
    rw [hnQ]; nlinarith [hms]
  have hlen : (stdGrid n).length = n := stdGrid_length n
  -- some grid value exceeds 180, so the remap branch is taken
  have hany : (stdGrid n).any (fun x => decide (180 < x)) = true := by
    rw [List.any_eq_true]
    refine ⟨((m + 1 : ℕ) : ℚ) * s, ?_, ?_⟩
    · rw [stdGrid, List.mem_map]
      exact ⟨m + 1, List.mem_range.2 (show m + 1 < n by omega), rfl⟩
    · simp only [decide_eq_true_eq]
      push_cast
      nlinarith
  -- the remapped value at each index
  have hremap : ∀ k : ℕ, k < n →
      pymod ((k : ℚ) * s + 180) 360 - 180 =
        (if k < m then (k : ℚ) * s else (k : ℚ) * s - 360) := by
    intro k hk
    have hks0 : 0 ≤ (k : ℚ) * s := by positivity
    have hksn : (k : ℚ) * s < 360 := by
      rw [← h2ms]
      apply mul_lt_mul_of_pos_right _ hs
      rw [hnQ]
      have : (k : ℚ) < (n : ℚ) := by exact_mod_cast hk
      rw [hnQ] at this
      linarith
    by_cases hkm : k < m
    · have hlt : (k : ℚ) * s < 180 := by
        rw [← hms]
        apply mul_lt_mul_of_pos_right _ hs
        exact_mod_cast hkm
      rw [if_pos hkm, pymod_eq_self (by norm_num) (by linarith) (by linarith)]
      ring
    · have hge : (180 : ℚ) ≤ (k : ℚ) * s := by
        rw [← hms]
        apply mul_le_mul_of_nonneg_right _ hs.le
        exact_mod_cast Nat.le_of_not_lt hkm
      rw [if_neg hkm, pymod_eq_sub (by norm_num) (by linarith) (by linarith)]
      ring
  -- now unfold fix_lons
  rw [fix_lons_180_eq]
  simp only [hany, if_pos]
  set l1 : List ℚ := (stdGrid n).map (fun x => pymod (x + 180) 360 - 180) with hl1
  have hl1len : l1.length = n := by rw [hl1, List.length_map, hlen]
  have hl1get : ∀ (k : ℕ) (hk : k < l1.length),
      l1.get ⟨k, hk⟩ = (if k < m then (k : ℚ) * s else (k : ℚ) * s - 360) := by
    intro k hk
    have hk' : k < (stdGrid n).length := by rwa [hlen, ← hl1len]
    have h1 : l1.get ⟨k, hk⟩ = pymod ((stdGrid n).get ⟨k, hk'⟩ + 180) 360 - 180 := by
      simp only [hl1, List.get_eq_getElem, List.getElem_map]
    rw [h1, stdGrid_get n k hk', ← hsdef]
    exact hremap k (by rwa [hlen] at hk')
  have h0 : 0 < l1.length := by rw [hl1len, hn]; omega
  have hne : l1 ≠ [] := List.ne_nil_of_length_pos h0
  -- head of l1 is 0
  have hhead : l1.head? = some 0 := by
    rw [← List.get?_zero, List.get?_eq_get h0]
    rw [hl1get 0 h0, if_pos (by omega)]
    norm_num
  rw [hhead, Option.map_some']
  have hhalf : (l1.length / 2 : ℕ) = m := by rw [hl1len, hn]; omega
  rw [if_pos (by norm_num)]
  congr 1
  rw [hhalf]
  -- the roll is a left rotation by m
  have hroll : npRoll l1 ((m : ℕ) : ℤ) = l1.rotate m := by
    unfold npRoll
    rw [if_neg (by omega)]
    congr 1
    rw [hl1len]
    have hmod : (-(m : ℤ)) % ((n : ℕ) : ℤ) = (m : ℤ) := by
      have h1 : (-(m : ℤ)) + ((n : ℕ) : ℤ) * 1 = (m : ℤ) := by
        rw [hn]; push_cast; ring
      rw [← Int.add_mul_emod_self_left (c := 1), h1,
        Int.emod_eq_of_lt (by omega) (by rw [hn]; push_cast; omega)]
    rw [hmod]
    simp
  rw [hroll]
  -- elementwise: the rotation is the sorted grid
  apply List.ext_get
  · rw [List.length_rotate, hl1len, stdGrid180_length]
  intro i h1 h2
  have hi : i < n := by rwa [List.length_rotate, hl1len] at h1
  rw [List.get_rotate]
  have htarget : (stdGrid180 n).get ⟨i, h2⟩ = (i : ℚ) * s - 180 := by
    rw [stdGrid180_get n i h2, ← hsdef]
  rw [htarget]
  by_cases him : i < m
  · have hidx : ((⟨i, h1⟩ : Fin (l1.rotate m).length).val + m) % l1.length = i + m := by
      simp only [hl1len]
      exact Nat.mod_eq_of_lt (by omega)
    have hlt : i + m < l1.length := by rw [hl1len, hn]; omega
    have hstep : l1.get ⟨((⟨i, h1⟩ : Fin (l1.rotate m).length).val + m) % l1.length,
        Nat.mod_lt _ (by omega)⟩ = l1.get ⟨i + m, hlt⟩ := by
      congr 1
      exact Fin.ext hidx
    rw [hstep, hl1get (i + m) hlt, if_neg (by omega)]
    push_cast
    nlinarith [hms]
  · have hidx : ((⟨i, h1⟩ : Fin (l1.rotate m).length).val + m) % l1.length = i - m := by
      simp only [hl1len]
      have hrw : i + m = (i - m) + 1 * n := by rw [hn]; omega
      rw [hrw, Nat.add_mul_mod_self_right, Nat.mod_eq_of_lt (by omega)]
    have hlt : i - m < l1.length := by rw [hl1len, hn]; omega
    have hstep : l1.get ⟨((⟨i, h1⟩ : Fin (l1.rotate m).length).val + m) % l1.length,
        Nat.mod_lt _ (by omega)⟩ = l1.get ⟨i - m, hlt⟩ := by
      congr 1
      exact Fin.ext hidx
    rw [hstep, hl1get (i - m) hlt, if_pos (by omega)]
    have hcast : ((i - m : ℕ) : ℚ) = (i : ℚ) - (m : ℚ) := by
      push_cast [Nat.cast_sub (Nat.le_of_not_lt him)]
      ring
    rw [hcast]
    nlinarith [hms]

theorem stdGrid180_sorted (n : ℕ) (hn : 0 < n) :
    List.Pairwise (· < ·) (stdGrid180 n) := by
  have hnQ : (0 : ℚ) < (n : ℚ) := by exact_mod_cast hn
  have hs : 0 < (360 : ℚ) / (n : ℚ) := div_pos (by norm_num) hnQ
  rw [List.pairwise_iff_get]
  intro i j hij
  rw [stdGrid180_get n i i.isLt, stdGrid180_get n j j.isLt]
  have hlt : ((i : ℕ) : ℚ) < ((j : ℕ) : ℚ) := by exact_mod_cast hij
  nlinarith

theorem stdGrid180_mem_range (n : ℕ) (hn : 0 < n) :
    ∀ x ∈ stdGrid180 n, -180 ≤ x ∧ x < 180 := by
  intro x hx
  rw [stdGrid180, List.mem_map] at hx
  obtain ⟨k, hk, rfl⟩ := hx
  rw [List.mem_range] at hk
  have hnQ : (0 : ℚ) < (n : ℚ) := by exact_mod_cast hn
  have hs : 0 < (360 : ℚ) / (n : ℚ) := div_pos (by norm_num) hnQ
  constructor
  · have : (0 : ℚ) ≤ (k : ℚ) * (360 / (n : ℚ)) := by positivity
    linarith
  · have hkn : (k : ℚ) < (n : ℚ) := by exact_mod_cast hk
    have hmul : (k : ℚ) * (360 / (n : ℚ)) < (n : ℚ) * (360 / (n : ℚ)) :=
      mul_lt_mul_of_pos_right hkn hs
    rw [mul_div_cancel₀ _ hnQ.ne'] at hmul
    linarith

/-- In a strictly sorted list, the indices selected by a range `[a, b]`
form a contiguous interval: anything between two selected indices is
selected. -/
theorem sorted_sel_interval {l : List ℚ} (hl : List.Pairwise (· < ·) l) (a b : ℚ)
    {i j k : ℕ} (hij : i ≤ j) (hjk : j ≤ k) (hk : k < l.length)
    (hia : a ≤ l.getD i 0) (hkb : l.getD k 0 ≤ b) :
    a ≤ l.getD j 0 ∧ l.getD j 0 ≤ b := by
  have hj : j < l.length := Nat.lt_of_le_of_lt hjk hk
  have hi : i < l.length := Nat.lt_of_le_of_lt hij hj
  have hmono : ∀ (p q : ℕ) (hp : p < l.length) (hq : q < l.length), p ≤ q →
      l.get ⟨p, hp⟩ ≤ l.get ⟨q, hq⟩ := by
    intro p q hp hq hpq
    rcases Nat.eq_or_lt_of_le hpq with rfl | hlt
    · exact le_refl _
    · exact le_of_lt (List.pairwise_iff_get.1 hl ⟨p, hp⟩ ⟨q, hq⟩ (by simpa using hlt))
  rw [List.getD_eq_getElem l 0 hi] at hia
  rw [List.getD_eq_getElem l 0 hk] at hkb
  rw [List.getD_eq_getElem l 0 hj]
  constructor
  · exact le_trans hia (by simpa [List.get_eq_getElem] using hmono i j hi hj hij)
  · exact le_trans (by simpa [List.get_eq_getElem] using hmono j k hj hk hjk) hkb

/-- C1, counterexample: on the grid with longitudes `[0, 90]` (all within
`(-180, 180]`, so the 180-branch does not remap) the first longitude `0`
is `> -175`, so `fix_lons` rolls by half the length and returns
`[90, 0]`, which is not strictly monotonically increasing and does not
span a canonical range. -/
theorem claim_C1_counterexample :
    fix_lons [0, 90] 180 (-180) = some [90, 0] ∧
      ¬ List.Pairwise (· < ·) ([90, 0] : List ℚ) := by
  constructor
  · norm_num [fix_lons, pymod, npRoll, List.rotate]
  · norm_num [List.pairwise_cons]

/-- C1 (amended): for the standard even-length global grids
`0, s, ..., 360 - s` (`s = 360 / (2m)`, `m ≥ 2`) and the 180 convention,
`fix_lons` produces the longitude coordinate `-180, -180+s, ..., 180-s`,
which is strictly monotonically increasing and spans `[-180, 180)`; any
range slice `[a, b]` containing at least one grid longitude selects a
non-empty set of indices, and the selected index set is contiguous (no
wraparound gap).  (As `claim_C1_counterexample` shows, this fails for
arbitrary grids; the 360 branch moreover returns `[origin:360, 0:origin]`,
which wraps around by design and is cut off only later by the caller.) -/
theorem claim_C1_amended (m : ℕ) (hm : 2 ≤ m) (o : ℚ) :
    fix_lons (stdGrid (2 * m)) 180 o = some (stdGrid180 (2 * m)) ∧
    List.Pairwise (· < ·) (stdGrid180 (2 * m)) ∧
    (∀ x ∈ stdGrid180 (2 * m), -180 ≤ x ∧ x < 180) ∧
    (∀ a b : ℚ, (∃ x ∈ stdGrid180 (2 * m), a ≤ x ∧ x ≤ b) →
      (stdGrid180 (2 * m)).filter (fun x => decide (a ≤ x) && decide (x ≤ b)) ≠ []) ∧
    (∀ a b : ℚ, ∀ i j k : ℕ, i ≤ j → j ≤ k → k < (stdGrid180 (2 * m)).length →
      a ≤ (stdGrid180 (2 * m)).getD i 0 → (stdGrid180 (2 * m)).getD k 0 ≤ b →
      a ≤ (stdGrid180 (2 * m)).getD j 0 ∧ (stdGrid180 (2 * m)).getD j 0 ≤ b) := by
  have hn : 0 < 2 * m := by omega
  refine ⟨fix_lons_stdGrid m hm o, stdGrid180_sorted _ hn, stdGrid180_mem_range _ hn, ?_, ?_⟩
  · rintro a b ⟨x, hx, hax, hxb⟩
    apply List.ne_nil_of_mem (a := x)
    exact List.mem_filter.2 ⟨hx, by simp [hax, hxb]⟩
  · intro a b i j k hij hjk hk hia hkb
    exact sorted_sel_interval (stdGrid180_sorted _ hn) a b hij hjk hk hia hkb

/-- Witness for `claim_C1_amended` at `m = 2` (the 4-point global grid). -/
theorem claim_C1_amended_witness :
    fix_lons (stdGrid 4) 180 (-180) = some [-180, -90, 0, 90] := by
  have h := (claim_C1_amended 2 (by norm_num) (-180)).1
  have he : stdGrid180 (2 * 2) = [-180, -90, 0, 90] := by
    norm_num [stdGrid180, List.range_succ]
  rw [he] at h
  exact h

end C1

section C2

/-- C2, counterexample: `fix_lons` with `lon_range = 180` is not
idempotent on the grid `[0, 90]`: one application yields `[90, 0]`
(first value `0 > -175`, roll by half), and a second application rolls
again, yielding `[0, 90] ≠ [90, 0]`. -/
theorem claim_C2_counterexample :
    (fix_lons [0, 90] 180 (-180)).bind (fun l => fix_lons l 180 (-180)) ≠
      fix_lons [0, 90] 180 (-180) := by
  norm_num [fix_lons, pymod, npRoll, List.rotate]
  simp

theorem mem_npRoll {x : ℚ} (l : List ℚ) (k : ℤ) : x ∈ npRoll l k ↔ x ∈ l := by
  unfold npRoll
  split
  · exact Iff.rfl
  · exact List.mem_rotate

/-- C2 (amended): `fix_lons` is idempotent on its 360 branch whenever it
returns a grid, and on its 180 branch whenever the first application
yields a grid whose first longitude is `≤ -175` (e.g. the normalized
standard global grids); `claim_C2_counterexample` shows it is not
idempotent on the 180 branch in general. -/
theorem claim_C2_amended :
    (∀ (lons out : List ℚ) (o : ℚ), fix_lons lons 360 o = some out →
      fix_lons out 360 o = some out) ∧
    (∀ (lons out : List ℚ) (o : ℚ) (h0 : ℚ), fix_lons lons 180 o = some out →
      out.head? = some h0 → h0 ≤ -175 → fix_lons out 180 o = some out) := by
  constructor
  · intro lons out o h
    obtain ⟨ho, i, hi, hp, hout⟩ := fix_lons_360_some h
    rw [fix_lons_360_eq]
    simp only
    rw [if_neg ho]
    set l1 : List ℚ := lons.map (fun x => pymod x 360) with hl1
    have hmapid : out.map (fun x => pymod x 360) = out := by
      have hall : ∀ x ∈ out, pymod x 360 = x := by
        intro x hx
        rw [hout, List.mem_rotate] at hx
        rw [hl1, List.mem_map] at hx
        obtain ⟨y, -, rfl⟩ := hx
        exact pymod_idem y (by norm_num)
      calc out.map (fun x => pymod x 360) = out.map id := List.map_congr_left hall
        _ = out := List.map_id out
    rw [hmapid]
    have hne : out ≠ [] := by
      apply List.ne_nil_of_length_pos
      rw [hout, List.length_rotate]
      omega
    have hhead : out.head? = some (l1.get ⟨i, hi⟩) := by
      rw [hout, List.head?_rotate hi, List.getElem?_eq_getElem hi, List.get_eq_getElem]
    obtain ⟨y, ys, hcons⟩ := List.exists_cons_of_ne_nil hne
    rw [hcons, List.head?_cons, Option.some.injEq] at hhead
    rw [hcons, firstIdx_cons_of_pos _ _ _
      (by rw [hhead]; simp only [decide_eq_true_eq]; exact hp), Option.map_some']
    have : npRoll (y :: ys) (-((0 : ℕ) : ℤ)) = y :: ys := by
      norm_num [npRoll_zero]
    rw [this, ← hcons]
  · intro lons out o h0 hfix hhead hle
    have hbound : ∀ x ∈ out, ¬(180 < x) := by
      rw [fix_lons_180_eq] at hfix
      simp only at hfix
      by_cases hany : lons.any (fun x => decide (180 < x)) = true
      · rw [if_pos hany] at hfix
        obtain ⟨hd, -, hout⟩ := Option.map_eq_some'.1 hfix
        intro x hx
        rw [← hout] at hx
        have hx1 : x ∈ lons.map (fun x => pymod (x + 180) 360 - 180) := by
          split at hx
          · rwa [mem_npRoll] at hx
          · exact hx
        rw [List.mem_map] at hx1
        obtain ⟨y, -, rfl⟩ := hx1
        have := pymod_lt (y + 180) (show (0:ℚ) < 360 by norm_num)
        intro hcon
        linarith
      · rw [if_neg hany] at hfix
        obtain ⟨hd, -, hout⟩ := Option.map_eq_some'.1 hfix
        intro x hx
        rw [← hout] at hx
        have hx1 : x ∈ lons := by
          split at hx
          · rwa [mem_npRoll] at hx
          · exact hx
        have := List.any_eq_true.not.1 hany
        push_neg at this
        have hx2 := this x hx1
        simpa using hx2
    rw [fix_lons_180_eq]
    simp only
    have hany2 : ¬ (out.any (fun x => decide (180 < x)) = true) := by
      rw [List.any_eq_true]
      push_neg
      intro x hx
      simpa using hbound x hx
    rw [if_neg hany2, hhead, Option.map_some']
    rw [if_neg (by linarith)]

/-- Witness for `claim_C2_amended` (360 branch, grid `[400, 45]`,
origin 30). -/
theorem claim_C2_amended_witness :
    fix_lons ([40, 45] : List ℚ) 360 30 = some [40, 45] :=
  claim_C2_amended.1 [400, 45] [40, 45] 30
    (by norm_num [fix_lons, firstIdx, pymod, pyfloordiv, npRoll, List.rotate])

end C2

section C10

theorem pyfloordiv_eq_one_iff {v o : ℚ} (ho : 0 < o) :
    pyfloordiv v o = 1 ↔ o ≤ v ∧ v < 2 * o := by
  rw [pyfloordiv, Int.floor_eq_iff]
  push_cast
  constructor
  · rintro ⟨h1, h2⟩
    constructor
    · have := (le_div_iff₀ ho).1 h1
      linarith
    · have := (div_lt_iff₀ ho).1 h2
      linarith
  · rintro ⟨h1, h2⟩
    constructor
    · rw [le_div_iff₀ ho]; linarith
    · rw [div_lt_iff₀ ho]; linarith

theorem pyfloordiv_ne_one_of_neg {v o : ℚ} (hv : 0 ≤ v) (ho : o < 0) :
    pyfloordiv v o ≠ 1 := by
  rw [pyfloordiv]
  intro hq
  have h1 : (1 : ℚ) ≤ v / o := by
    have := Int.le_floor.1 (le_of_eq hq.symm)
    exact_mod_cast this
  have h2 : (v / o) * o ≤ 1 * o := mul_le_mul_of_nonpos_right h1 ho.le
  rw [div_mul_cancel₀ _ (ne_of_lt ho), one_mul] at h2
  linarith

/-- C10: the 360-based branch of `fix_lons` returns a grid only when
`lon_origin` is strictly positive and some (remapped) longitude `v`
satisfies `lon_origin ≤ v < 2 * lon_origin` (i.e. `v // lon_origin = 1`);
with `lon_origin = 0` the roll-offset computation divides by zero and the
call fails, and with a negative `lon_origin`, or one exceeding every
longitude, the first-index lookup is over an empty match set and the call
fails instead of returning a grid. -/
theorem claim_C10 :
    (∀ (lons out : List ℚ) (o : ℚ), fix_lons lons 360 o = some out →
      0 < o ∧ ∃ v ∈ lons.map (fun x => pymod x 360), o ≤ v ∧ v < 2 * o) ∧
    (∀ lons : List ℚ, fix_lons lons 360 0 = none) ∧
    (∀ (lons : List ℚ) (o : ℚ), o < 0 → fix_lons lons 360 o = none) ∧
    (∀ (lons : List ℚ) (o : ℚ), 0 < o →
      (∀ v ∈ lons.map (fun x => pymod x 360), v < o) →
      fix_lons lons 360 o = none) := by
  refine ⟨?_, ?_, ?_, ?_⟩
  · intro lons out o h
    obtain ⟨ho, i, hi, hp, -⟩ := fix_lons_360_some h
    set v : ℚ := (lons.map (fun x => pymod x 360)).get ⟨i, hi⟩ with hv
    have hvmem : v ∈ lons.map (fun x => pymod x 360) := List.get_mem _ _ _
    obtain ⟨hv0, -⟩ := mem_map_pymod_nonneg hvmem
    rcases lt_trichotomy o 0 with hneg | rfl | hpos
    · exact absurd hp (pyfloordiv_ne_one_of_neg hv0 hneg)
    · exact absurd rfl ho
    · exact ⟨hpos, v, hvmem, (pyfloordiv_eq_one_iff hpos).1 hp⟩
  · intro lons
    rw [fix_lons_360_eq]
    simp
  · intro lons o ho
    rw [fix_lons_360_eq]
    simp only
    rw [if_neg (ne_of_lt ho)]
    have hnone : firstIdx (fun x => decide (pyfloordiv x o = 1))
        (lons.map (fun x => pymod x 360)) = none := by
      rw [firstIdx_eq_none_iff]
      intro x hx
      obtain ⟨h0, -⟩ := mem_map_pymod_nonneg hx
      simpa using pyfloordiv_ne_one_of_neg h0 ho
    rw [hnone]
    rfl
  · intro lons o ho hall
    rw [fix_lons_360_eq]
    simp only
    rw [if_neg (ne_of_gt ho)]
    have hnone : firstIdx (fun x => decide (pyfloordiv x o = 1))
        (lons.map (fun x => pymod x 360)) = none := by
      rw [firstIdx_eq_none_iff]
      intro x hx
      have hlt := hall x hx
      simp only [decide_eq_false_iff_not]
      intro hfd
      have := ((pyfloordiv_eq_one_iff ho).1 hfd).1
      linarith
    rw [hnone]
    rfl

/-- Witness for `claim_C10` on concrete grids and origins. -/
theorem claim_C10_witness :
    ((0:ℚ) < 30 ∧ ∃ v ∈ ([45] : List ℚ).map (fun x => pymod x 360),
      30 ≤ v ∧ v < 2 * 30) ∧
    fix_lons [45] 360 0 = none ∧
    fix_lons [45] 360 (-30) = none ∧
    fix_lons [10, 50, 100] 360 200 = none :=
  ⟨claim_C10.1 [45] [45] 30
      (by norm_num [fix_lons, firstIdx, pymod, pyfloordiv, npRoll, List.rotate]),
   claim_C10.2.1 [45],
   claim_C10.2.2.1 [45] (-30) (by norm_num),
   claim_C10.2.2.2 [10, 50, 100] 200 (by norm_num) (by norm_num [pymod])⟩

end C10

section C3

/-- C3: the file-existence gate, evaluated before the grid is loaded,
yields exactly three outcomes: (a) every path exists and overwrite is
disabled — the source dataset is skipped with a report, with zero writes
and zero network loads; (b) some path exists and overwrite is enabled —
exactly the existing paths are deleted and everything is regenerated;
(c) otherwise — the grid is loaded, nothing is deleted, and exactly the
missing outputs are generated. -/
theorem claim_C3 (overwrite : Bool) (pathExists : List Bool) :
    (overwrite = false → pathExists.all (fun e => e) = true →
      (processSource overwrite pathExists).loaded = false ∧
      (processSource overwrite pathExists).written = pathExists.map (fun _ => false) ∧
      (processSource overwrite pathExists).deleted = pathExists.map (fun _ => false) ∧
      (processSource overwrite pathExists).skipReport = true) ∧
    (overwrite = true → pathExists.any (fun e => e) = true →
      (processSource overwrite pathExists).deleted = pathExists ∧
      (processSource overwrite pathExists).loaded = true ∧
      (processSource overwrite pathExists).written = pathExists.map (fun _ => true)) ∧
    (¬(overwrite = false ∧ pathExists.all (fun e => e) = true) →
     ¬(overwrite = true ∧ pathExists.any (fun e => e) = true) →
      (processSource overwrite pathExists).loaded = true ∧
      (processSource overwrite pathExists).deleted = pathExists.map (fun _ => false) ∧
      (processSource overwrite pathExists).written = pathExists.map (fun e => !e)) := by
  refine ⟨?_, ?_, ?_⟩
  · rintro rfl hall
    simp [processSource, hall]
  · rintro rfl hany
    rw [processSource, if_neg (by simp)]
    refine ⟨by simp [hany], rfl, ?_⟩
    simp
  · intro h1 h2
    rcases hov : overwrite with _ | _
    · have hall : pathExists.all (fun e => e) ≠ true := fun hc => h1 ⟨hov, hc⟩
      rw [processSource, if_neg (by simpa using hall)]
      refine ⟨rfl, by simp, by simp⟩
    · have hany : pathExists.any (fun e => e) ≠ true := fun hc => h2 ⟨hov, hc⟩
      rw [processSource, if_neg (by simp)]
      refine ⟨rfl, by simp [Bool.eq_false_iff.2 hany], ?_⟩
      have hfalse : ∀ e ∈ pathExists, e = false := by
        have h := Bool.eq_false_iff.2 hany
        simpa using h
      simp only
      apply List.map_congr_left
      intro e he
      rw [hfalse e he]
      simp

/-- Witness for `claim_C3`: the three outcomes on concrete inputs. -/
theorem claim_C3_witness :
    (processSource false [true, true]).loaded = false ∧
    (processSource true [true, false]).deleted = [true, false] ∧
    (processSource false [true, false]).written = [false, true] := by
  refine ⟨((claim_C3 false [true, true]).1 rfl (by decide)).1,
    ((claim_C3 true [true, false]).2.1 rfl (by decide)).1, ?_⟩
  have h := ((claim_C3 false [true, false]).2.2 (by simp) (by simp)).2.2
  simpa using h

end C3

section C4

/-- C4: when the grid's calendar is detected as having 30-day months
(day of the maximum timestamp equal to 30, or explicit 360-day calendar
type), time subsetting substitutes day 30 for an end day of 31 before
slicing, and otherwise slices on the literal dates; in particular, on a
360-day-calendar grid, an end date `y-12-31` gives exactly the same
subset as `y-12-30`. -/
theorem claim_C4 (times : List CalDate) (is360 : Bool) (t0 t1 : CalDate) (y : ℕ) :
    (is360 = true → timeSubset times is360 t0 ⟨y, 12, 31⟩ =
      timeSubset times is360 t0 ⟨y, 12, 30⟩) ∧
    (calendar30 times is360 = true → timeSubset times is360 t0 t1 =
      times.filter (fun t => CalDate.le t0 t && CalDate.le t (subEnd31 t1))) ∧
    (calendar30 times is360 = false → timeSubset times is360 t0 t1 =
      times.filter (fun t => CalDate.le t0 t && CalDate.le t t1)) := by
  refine ⟨?_, ?_, ?_⟩
  · rintro rfl
    have hc : calendar30 times true = true := by
      simp [calendar30]
    rw [timeSubset, if_pos hc, timeSubset, if_pos hc]
    have h31 : subEnd31 ⟨y, 12, 31⟩ = ⟨y, 12, 30⟩ := by
      simp [subEnd31]
    have h30 : subEnd31 ⟨y, 12, 30⟩ = ⟨y, 12, 30⟩ := by
      simp [subEnd31]
    rw [h31, h30]
  · intro hc
    rw [timeSubset, if_pos hc]
  · intro hc
    rw [timeSubset, if_neg (by simp [hc])]

/-- Witness for `claim_C4` on a concrete 360-day-calendar grid. -/
theorem claim_C4_witness :
    timeSubset [⟨2014, 12, 29⟩, ⟨2014, 12, 30⟩] true ⟨2014, 1, 1⟩ ⟨2014, 12, 31⟩ =
      timeSubset [⟨2014, 12, 29⟩, ⟨2014, 12, 30⟩] true ⟨2014, 1, 1⟩ ⟨2014, 12, 30⟩ :=
  (claim_C4 [⟨2014, 12, 29⟩, ⟨2014, 12, 30⟩] true ⟨2014, 1, 1⟩ ⟨0, 0, 0⟩ 2014).1 rfl

end C4

section C8

theorem filterMap_get?_in_range (l : List ℚ) (idx : List ℕ)
    (h : ∀ i ∈ idx, i < l.length) :
    idx.filterMap (fun i => l.get? i) = idx.map (fun i => l.getD i 0) := by
  induction idx with
  | nil => rfl
  | cons a as ih =>
    have ha : a < l.length := h a (List.mem_cons_self _ _)
    rw [List.map_cons,
      List.filterMap_cons_some (by rw [List.get?_eq_get ha]),
      ih (fun i hi => h i (List.mem_cons_of_mem _ hi))]
    rw [List.getD_eq_getElem l 0 ha, List.get_eq_getElem]

theorem keepIdx_lt (n : ℕ) (bad : ℕ → Bool) : ∀ i ∈ keepIdx n bad, i < n := by
  intro i hi
  rw [keepIdx, List.mem_filter] at hi
  exact List.mem_range.1 hi.1

/-- C8: whenever the lat (resp. lon) axis contains duplicate values after
rounding to 10 decimal places, the compensation warns about that axis
and keeps exactly the coordinate entries whose primary variable is
non-NaN at the fixed reference slice, dropping the NaN ones and
preserving all others in order; without duplicates the grid passes
through unchanged. -/
theorem claim_C8 (g : CGrid) :
    ((g.lat.map round10).dedup.length ≠ g.lat.length →
      (dedupLat g).2 = true ∧
      (dedupLat g).1.lat = ((List.range g.lat.length).filter
        (fun i => !refNanLat g i)).map (fun i => g.lat.getD i 0)) ∧
    ((g.lat.map round10).dedup.length = g.lat.length →
      dedupLat g = (g, false)) ∧
    ((g.lon.map round10).dedup.length ≠ g.lon.length →
      (dedupLon g).2 = true ∧
      (dedupLon g).1.lon = ((List.range g.lon.length).filter
        (fun j => !refNanLon g j)).map (fun j => g.lon.getD j 0)) ∧
    ((g.lon.map round10).dedup.length = g.lon.length →
      dedupLon g = (g, false)) := by
  refine ⟨?_, ?_, ?_, ?_⟩
  · intro hdup
    rw [dedupLat, if_pos hdup]
    refine ⟨rfl, ?_⟩
    show (keepIdx g.lat.length (refNanLat g)).filterMap (fun i => g.lat.get? i) = _
    rw [filterMap_get?_in_range _ _ (keepIdx_lt _ _)]
    rfl
  · intro hnod
    rw [dedupLat, if_neg (by simpa using hnod)]
  · intro hdup
    rw [dedupLon, if_pos hdup]
    refine ⟨rfl, ?_⟩
    show (keepIdx g.lon.length (refNanLon g)).filterMap (fun j => g.lon.get? j) = _
    rw [filterMap_get?_in_range _ _ (keepIdx_lt _ _)]
    rfl
  · intro hnod
    rw [dedupLon, if_neg (by simpa using hnod)]

/-- Witness for `claim_C8` on `sampleGrid`: the two duplicated, NaN lat
rows (indices 2 and 4) are dropped and the other four preserved. -/
theorem claim_C8_witness :
    (dedupLat sampleGrid).2 = true ∧ (dedupLat sampleGrid).1.lat = [0, 10, 30, 40] := by
  have hdup : (sampleGrid.lat.map round10).dedup.length ≠ sampleGrid.lat.length := by
    have hmap : sampleGrid.lat.map round10 = [0, 10, 20, 30, 20, 40] := by
      norm_num [sampleGrid, round10, roundHalfEven]
    rw [hmap]
    have hlen : sampleGrid.lat.length = 6 := by rw [sampleGrid]; rfl
    rw [hlen]
    norm_num [List.dedup_cons_of_mem, List.dedup_cons_of_not_mem]
  have h := (claim_C8 sampleGrid).1 hdup
  refine ⟨h.1, ?_⟩
  rw [h.2]
  have hfil : (List.range sampleGrid.lat.length).filter
      (fun i => !refNanLat sampleGrid i) = [0, 1, 3, 5] := by
    rfl
  rw [hfil]
  simp [sampleGrid, List.getD_cons_zero, List.getD_cons_succ]

end C8

section C6

theorem filter_range_present_ne_nil {present : List Bool}
    (h : ∃ p ∈ present, p = true) :
    (List.range present.length).filter (fun i => present.getD i false) ≠ [] := by
  obtain ⟨p, hp, rfl⟩ := h
  obtain ⟨i, hi⟩ := List.get_of_mem hp
  apply List.ne_nil_of_mem (a := (i : ℕ))
  rw [List.mem_filter]
  refine ⟨List.mem_range.2 i.isLt, ?_⟩
  rw [List.getD_eq_getElem present false i.isLt]
  simp [← hi, List.get_eq_getElem]

/-- C6, counterexample: with the first chunk's intermediate present and
the second missing, the concatenation silently writes the final file
containing only chunk 0 — gapped time coverage — instead of failing
before producing the final output. -/
theorem claim_C6_counterexample :
    (concatPhase [true, false]).finalWritten = true ∧
    (concatPhase [true, false]).includedChunks = [0] ∧
    (concatPhase [true, true]).includedChunks = [0, 1] := by
  refine ⟨rfl, rfl, rfl⟩

/-- C6 (amended): if at least one (but not every) chunk intermediate is
present at concatenation time, the final file is written from exactly
the present chunks (gapped coverage) and an error — FileNotFoundError
from the cleanup loop — is raised only after the final file exists; with
all intermediates present the phase completes cleanly; only when no
intermediate matches the glob does the open itself fail and no final
file is written. -/
theorem claim_C6_amended (present : List Bool) :
    ((∃ p ∈ present, p = true) →
      (concatPhase present).finalWritten = true ∧
      (concatPhase present).includedChunks =
        (List.range present.length).filter (fun i => present.getD i false) ∧
      (present.all (fun p => p) = false →
        (concatPhase present).raised = some PyErr.fileNotFoundError) ∧
      (present.all (fun p => p) = true → (concatPhase present).raised = none)) ∧
    ((∀ p ∈ present, p = false) →
      (concatPhase present).finalWritten = false ∧
      (concatPhase present).raised = some PyErr.osError) := by
  constructor
  · intro hsome
    have hne := filter_range_present_ne_nil hsome
    simp only [concatPhase]
    rw [if_neg (by simpa [List.isEmpty_iff] using hne)]
    refine ⟨rfl, rfl, ?_, ?_⟩
    · intro hall
      simp [hall]
    · intro hall
      simp [hall]
  · intro hnone
    have hempty : (List.range present.length).filter
        (fun i => present.getD i false) = [] := by
      rw [List.filter_eq_nil_iff]
      intro i hi
      rw [List.mem_range] at hi
      rw [List.getD_eq_getElem present false hi]
      have := hnone (present.get ⟨i, hi⟩) (List.get_mem _ _ _)
      simpa [List.get_eq_getElem] using this
    simp only [concatPhase]
    rw [if_pos (by rw [hempty]; rfl)]
    exact ⟨rfl, rfl⟩

/-- Witness for `claim_C6_amended` on concrete presence patterns. -/
theorem claim_C6_amended_witness :
    (concatPhase [true, false]).raised = some PyErr.fileNotFoundError ∧
    (concatPhase [false, false]).finalWritten = false := by
  constructor
  · exact ((claim_C6_amended [true, false]).1 (by decide)).2.2.1 (by decide)
  · exact ((claim_C6_amended [false, false]).2 (by decide)).1

end C6

section C7

/-- C7, code bug: with an `'other'` key carrying a `plev_subset` request
whose target pressure (85000 Pa) is not within `np.allclose` tolerance
of any model level, the step does not skip-and-continue: the membership
test `'plev_subset' in data_params['other'].keys` (missing call
parentheses) raises TypeError as soon as `'other'` is present, and the
`try` body itself would raise IndexError from the empty `np.where`
match — which the `except KeyError` clause does not catch.  A target
matching a level (within tolerance) selects that level. -/
theorem claim_C7_eval :
    plevStep true [100000, 50000] 85000 = Except.error PyErr.typeError ∧
    plevTry [100000, 50000] 85000 = Except.error PyErr.indexError ∧
    plevTry [100000, 85000] 85000 = Except.ok (PlevOutcome.selected 1) := by
  refine ⟨rfl, ?_, ?_⟩
  · have h1 : allclose 100000 85000 = false := by
      norm_num [allclose, abs]
    have h2 : allclose 50000 85000 = false := by
      norm_num [allclose, abs]
    rw [plevTry, firstIdx, h1]
    rw [if_neg (by simp)]
    rw [firstIdx, h2]
    rw [if_neg (by simp)]
    rfl
  · have h1 : allclose 100000 85000 = false := by
      norm_num [allclose, abs]
    have h2 : allclose 85000 85000 = true := by
      norm_num [allclose, abs]
    rw [plevTry, firstIdx, h1]
    rw [if_neg (by simp)]
    rw [firstIdx, h2]
    rfl

end C7

section C9

/-- C9, code bug evaluation: whenever the first chunk of a fresh run
already has its intermediate on disk, the skip branch prints the
never-assigned variable `fn1` and raises NameError instead of skipping;
when at least one fetch precedes the first skip, the re-run behaves as
the claim says — present chunks are skipped, missing ones fetched, and
the run completes. -/
theorem claim_C9_eval :
    (∀ present : List Bool, runChunks (true :: present) =
      Except.error PyErr.nameError) ∧
    runChunks [false, true, false] =
      Except.ok [ChunkAct.fetched 0, ChunkAct.skipped 1, ChunkAct.fetched 2] ∧
    runChunks [false, true, true] =
      Except.ok [ChunkAct.fetched 0, ChunkAct.skipped 1, ChunkAct.skipped 2] := by
  refine ⟨fun present => rfl, rfl, rfl⟩

end C9

section C5

theorem mapM_option_eq_map {α β : Type} (f : α → Option β) (g : α → β) (l : List α)
    (h : ∀ x ∈ l, f x = some (g x)) :
    l.mapM f = some (l.map g) := by
  induction l with
  | nil => rfl
  | cons a as ih =>
    rw [List.mapM_cons, h a (List.mem_cons_self _ _),
      ih (fun x hx => h x (List.mem_cons_of_mem _ hx))]
    rfl

theorem zip_map_filter_fst {α : Type} (f : α → Bool) (h : Bool → Bool) (keys : List α) :
    ((keys.zip (keys.map f)).filter (fun p => h p.2)).map (fun p => p.1) =
      keys.filter (fun k => h (f k)) := by
  induction keys with
  | nil => rfl
  | cons k ks ih =>
    rcases hb : h (f k)
    · simp [List.filter_cons, hb, ih]
    · simp [List.filter_cons, hb, ih]

theorem lookupSpec_eq_valueOf {s : List (String × String)} {k : String}
    (h : k ∈ s.map (fun p => p.1)) : lookupSpec s k = some (valueOf s k) := by
  have hsome : (lookupSpec s k).isSome := by
    obtain ⟨p, hp, rfl⟩ := List.mem_map.1 h
    rw [lookupSpec]
    have hfind : (s.find? (fun q => q.1 == p.1)).isSome := by
      rw [List.find?_isSome]
      exact ⟨p, hp, by simp⟩
    obtain ⟨q, hq⟩ := Option.isSome_iff_exists.1 hfind
    rw [hq]
    rfl
  obtain ⟨v, hv⟩ := Option.isSome_iff_exists.1 hsome
  rw [hv, valueOf, hv]
  rfl

/-- C5, counterexample: on a batch of two specifications over the keys
`ab` (common value) and `cd` (varying), the resolver does not build the
claimed query: there is exactly one common key, `itemgetter` returns the
bare string `"ab"`, the comprehension iterates over its characters, and
the lookup of `"a"` in the first specification raises KeyError.  With
zero common keys (`itemgetter()` — TypeError) it fails as well. -/
theorem claim_C5_counterexample :
    buildQuery [[("ab", "x"), ("cd", "p")], [("ab", "x"), ("cd", "q")]] = none ∧
    buildQuery [[("k", "1")], [("k", "2")]] = none := by
  constructor
  · decide
  · decide

/-- C5 (amended): for every non-empty batch of specifications sharing
the same key list in which at least two keys have a value identical
across all specifications, the resolver builds exactly the query the
claim describes — the AND of one equality predicate per common key and,
per varying key, a parenthesized OR group with one equality disjunct per
specification (`specQueryCore`/`specQuery`).  With fewer than two common
keys the construction fails instead (see the counterexample). -/
theorem claim_C5_amended (specs : List (List (String × String)))
    (s0 : List (String × String)) (hhead : specs.head? = some s0)
    (hkeys : ∀ s ∈ specs, s.map (fun p => p.1) = s0.map (fun p => p.1))
    (hcommon : 2 ≤ ((s0.map (fun p => p.1)).filter (fun k =>
      decide ((specs.map (fun s => valueOf s k)).dedup.length = 1))).length) :
    buildQuery specs = some (specQuery specs) := by
  have hs0mem : s0 ∈ specs := by
    rcases specs with _ | ⟨a, as⟩
    · simp at hhead
    · simp only [List.head?_cons, Option.some.injEq] at hhead
      subst hhead
      exact List.mem_cons_self _ _
  have hsq : specQuery specs = specQueryCore specs s0 := by
    rcases specs with _ | ⟨a, as⟩
    · simp at hhead
    · simp only [List.head?_cons, Option.some.injEq] at hhead
      subst hhead
      rfl
  set keys : List String := s0.map (fun p => p.1) with hkeysdef
  set isCommon : String → Bool := fun k =>
    decide ((specs.map (fun s => valueOf s k)).dedup.length = 1) with hic
  have hlook : ∀ k ∈ keys, ∀ s ∈ specs, lookupSpec s k = some (valueOf s k) := by
    intro k hk s hs
    exact lookupSpec_eq_valueOf (by rw [hkeys s hs]; exact hk)
  have hflags : keys.mapM (fun k =>
      (specs.mapM (fun s => lookupSpec s k)).map
        (fun vs => decide (vs.dedup.length = 1))) = some (keys.map isCommon) := by
    apply mapM_option_eq_map
    intro k hk
    rw [mapM_option_eq_map _ _ _ (fun s hs => hlook k hk s hs)]
    rfl
  have hck : ((keys.zip (keys.map isCommon)).filter (fun p => p.2)).map (fun p => p.1) =
      keys.filter isCommon := by
    have h := zip_map_filter_fst isCommon (fun b => b) keys
    simpa using h
  have hvk : ((keys.zip (keys.map isCommon)).filter (fun p => !p.2)).map (fun p => p.1) =
      keys.filter (fun k => !isCommon k) := zip_map_filter_fst isCommon (fun b => !b) keys
  rw [buildQuery, hhead]
  simp only [Option.bind_eq_bind, Option.some_bind]
  rw [hflags]
  simp only [Option.some_bind]
  rw [hck, hvk]
  rcases hfc : keys.filter isCommon with _ | ⟨k1, tl⟩
  · rw [hfc] at hcommon; simp at hcommon
  rcases tl with _ | ⟨k2, cs⟩
  · rw [hfc] at hcommon; simp at hcommon
  have hmemc : ∀ k ∈ (k1 :: k2 :: cs), k ∈ keys := by
    intro k hk
    rw [← hfc] at hk
    exact List.mem_of_mem_filter hk
  have hbase : commonBase s0 (k1 :: k2 :: cs) =
      some (String.intercalate " and "
        ((k1 :: k2 :: cs).map (fun k => eqPred k (valueOf s0 k)))) := by
    have h0 : commonBase s0 (k1 :: k2 :: cs) =
        Option.map (String.intercalate " and ")
          ((k1 :: k2 :: cs).mapM (fun k =>
            Option.map (fun v => eqPred k v) (lookupSpec s0 k))) := rfl
    rw [h0, mapM_option_eq_map _ (fun k => eqPred k (valueOf s0 k)) _ ?hone]
    · rfl
    case hone =>
      intro k hk
      rw [hlook k (hmemc k hk) s0 hs0mem]
      rfl
  rw [hbase]
  simp only [Option.some_bind]
  rw [hsq]
  simp only [specQueryCore]
  rw [← hic, ← hkeysdef, hfc]
  rcases hfv : keys.filter (fun k => !isCommon k) with _ | ⟨v1, vs⟩
  · simp only [List.isEmpty_nil, if_pos]
    rfl
  · have hmemv : ∀ k ∈ (v1 :: vs), k ∈ keys := by
      intro k hk
      rw [← hfv] at hk
      exact List.mem_of_mem_filter hk
    have hgroups : (v1 :: vs).mapM (fun k =>
        Option.map (String.intercalate " or ")
          (specs.mapM (fun s => Option.map (fun v => eqPred k v) (lookupSpec s k)))) =
        some ((v1 :: vs).map (fun k => String.intercalate " or "
          (specs.map (fun s => eqPred k (valueOf s k))))) := by
      apply mapM_option_eq_map
      intro k hk
      rw [mapM_option_eq_map _ (fun s => eqPred k (valueOf s k)) _ ?hin]
      · rfl
      case hin =>
        intro s hs
        rw [hlook k (hmemv k hk) s hs]
        rfl
    have hwv : withVarying specs (String.intercalate " and "
        ((k1 :: k2 :: cs).map (fun k => eqPred k (valueOf s0 k)))) (v1 :: vs) =
        some (String.intercalate " and "
            ((k1 :: k2 :: cs).map (fun k => eqPred k (valueOf s0 k))) ++
          " and (" ++ String.intercalate ") and ("
            ((v1 :: vs).map (fun k => String.intercalate " or "
              (specs.map (fun s => eqPred k (valueOf s k))))) ++ ")") := by
      have h0 : withVarying specs (String.intercalate " and "
          ((k1 :: k2 :: cs).map (fun k => eqPred k (valueOf s0 k)))) (v1 :: vs) =
          Option.map (fun groups => String.intercalate " and "
              ((k1 :: k2 :: cs).map (fun k => eqPred k (valueOf s0 k))) ++
            " and (" ++ String.intercalate ") and (" groups ++ ")")
            ((v1 :: vs).mapM (fun k =>
              Option.map (String.intercalate " or ")
                (specs.mapM (fun s =>
                  Option.map (fun v => eqPred k v) (lookupSpec s k))))) := rfl
      rw [h0, hgroups]
      rfl
    rw [hwv]
    simp only [List.isEmpty_cons, Bool.false_eq_true, if_false]

/-- Witness for `claim_C5_amended` on a concrete two-spec batch with two
common keys (`t`, `v`) and one varying key (`e`). -/
theorem claim_C5_amended_witness :
    buildQuery [[("t", "day"), ("v", "pr"), ("e", "hist")],
        [("t", "day"), ("v", "pr"), ("e", "ssp")]] =
      some (specQuery [[("t", "day"), ("v", "pr"), ("e", "hist")],
        [("t", "day"), ("v", "pr"), ("e", "ssp")]]) :=
  claim_C5_amended _ _ rfl (by decide) (by decide)

end C5

end ClimateDownloads
